import Mathlib

/-!
Verification of the `sqlarfs` virtual-filesystem core (package `sqlarfs`,
file `sqlarfs.go`): an `io/fs.FS` implementation over the single `sqlar`
table of an SQLite Archive File.

Shallow embedding conventions:
* The `sqlar` table is a `List Row`; the SQL queries issued by the Go code
  are translated into pure functions over that list.  A query without an
  `ORDER BY` returns rows in list order (one fixed order chosen by the
  store).  `LIKE` patterns of the shapes used by the code
  (`P_%`, `P%/%`, `P_%/%`, `P%/%/%`, with `P` an escaped literal prefix)
  are translated to their structural meaning on the name: literal prefix
  `P` followed by constraints on the remainder.  (SQLite `LIKE` is
  ASCII-case-insensitive by default; the examples below use names where
  the two readings agree, and none of the proved properties depends on
  case folding.)
* Go strings are `List Char`; machine integers are `Nat` (masks, modes,
  rowids) or `Int` (sizes, times) — no overflow is reachable in the
  modelled code paths.
* Go errors are the inductive `Err`; `database/sql` iteration errors
  (`rows.Err()`) are modelled by an explicit `iterErr : Option Err`
  input to the listing functions.
* The recursive ancestor walk of `(*arfs).stat` recurses on the parent
  path, which is strictly shorter; the embedding makes this structural
  with a `fuel` parameter, and public entry points pass
  `name.length + 1`, which always exceeds the ancestor-chain depth.
* `compress/flate` is an external collaborator; its observable output is
  an `inflate : List Nat → List Nat` parameter.  `Close` of both reader
  kinds is modelled as error-free (exact for `io.NopCloser`; exact for a
  healthy flate stream).
-/

deriving instance DecidableEq for Except

/-- One row of the `sqlar` table: `(rowid, name, mode, mtime, sz, data)`. -/
structure Row where
  rowid : Nat
  name : List Char
  mode : Nat
  mtime : Int
  sz : Int
  data : List Nat
deriving DecidableEq

/-- Go `fileinfo` struct: metadata of one virtual filesystem node
(`mode` holds the raw Unix `S_IF*` bits plus permissions). -/
structure Fileinfo where
  rowid : Nat
  name : List Char
  mode : Nat
  mtime : Int
  sz : Int
deriving DecidableEq

/-- `syscall.S_IFDIR` (= 0x4000). -/
def S_IFDIR : Nat := 16384

/-- `syscall.S_IFREG` (= 0x8000). -/
def S_IFREG : Nat := 32768

/-- Go `dirMode`: `syscall.S_IFDIR | 0555` = 16749. -/
def dirMode : Nat := S_IFDIR ||| 0o555

/-- SQL fragment `((mode&49152)>>9)<>0` (constant `sqlModeFilter`):
keeps a row iff at least one of the two type bits is set. -/
def sqlModeFilter (mode : Nat) : Bool :=
  ((mode &&& 49152) >>> 9) != 0

/-- SQL fragment `(mode&32768)<>0` (constant `sqlModeFilterReg`). -/
def sqlModeFilterReg (mode : Nat) : Bool :=
  (mode &&& 32768) != 0

/-- `(*fileinfo).IsDir`: `mode & syscall.S_IFDIR != 0`. -/
def isDir (mode : Nat) : Bool :=
  (mode &&& S_IFDIR) != 0

/-- `(*arfs).canRead`: `mode&0444&uint32(ar.permMask) != 0`. -/
def canRead (mask mode : Nat) : Bool :=
  (mode &&& 0o444 &&& mask) != 0

/-- `(*arfs).canTraverse`: `mode&0111&uint32(ar.permMask) != 0`. -/
def canTraverse (mask mode : Nat) : Bool :=
  (mode &&& 0o111 &&& mask) != 0

/-- Go error values and `fs.PathError` wrapping. -/
inductive Err where
  | errInvalid : Err
  | errPermission : Err
  | errNotExist : Err
  | errClosed : Err
  | eof : Err
  | dbError : Nat → Err
  | pathError : List Char → List Char → Err → Err
deriving DecidableEq

/-- The `dirInfoCache` map, as an association list keyed by path
(`store` never introduces a duplicate key, see `dirInfoStore`). -/
abbrev Cache : Type := List (List Char × Fileinfo)

/-- `dirInfoCache.load`: map lookup (first binding for the key). -/
def dirInfoLoad (c : Cache) (path : List Char) : Option Fileinfo :=
  (c.find? (fun kv => kv.1 == path)).map (fun kv => kv.2)

/-- `dirInfoCache.store`: keep the earlier value if the key is already
bound, otherwise add the new binding; return the binding that is now
current. -/
def dirInfoStore (c : Cache) (path : List Char) (fi : Fileinfo) :
    Cache × Fileinfo :=
  match dirInfoLoad c path with
  | some fi2 => (c, fi2)
  | none => ((path, fi) :: c, fi)

/-- The `arfs` struct: store handle, permission mask, metadata cache. -/
structure Arfs where
  db : List Row
  permMask : Nat
  dirInfo : Cache
deriving DecidableEq

/-- `PermMask.apply`: only the four declared constants are accepted;
any other value makes `New` panic (modelled as `none`). -/
def applyPerm (p : Nat) (ar : Arfs) : Option Arfs :=
  if p = 0o700 ∨ p = 0o070 ∨ p = 0o007 ∨ p = 0o777 then
    some { ar with permMask := p }
  else
    none

/-- `New`: fresh handle with default mask `PermAny` (0777) and an empty
cache, then the options applied in order; a panicking option aborts
construction (`none`). -/
def newFS (db : List Row) (opts : List Nat) : Option Arfs :=
  opts.foldl (fun acc p => acc.bind (applyPerm p)) (some ⟨db, 0o777, []⟩)

/-- Split a name at `'/'` into segments (helper for `fs.ValidPath`). -/
def splitSeg : List Char → List (List Char)
  | [] => [[]]
  | c :: cs =>
    if c = '/' then [] :: splitSeg cs
    else
      match splitSeg cs with
      | [] => [[c]]
      | s :: rest => (c :: s) :: rest

/-- `io/fs.ValidPath`: `"."`, or nonempty `'/'`-separated segments none
of which is empty, `"."` or `".."`.  (Go additionally requires valid
UTF-8, which holds by construction for `List Char`.) -/
def validPath (name : List Char) : Bool :=
  name == ['.'] ||
    (splitSeg name).all
      (fun seg => !seg.isEmpty && seg != ['.'] && seg != ['.', '.'])

/-- `path/filepath.Split` (with `'/'` separator): `dir` is everything up
to and including the last `'/'` (empty if there is none), `file` is the
rest. -/
def splitFile (s : List Char) : List Char × List Char :=
  let file := (s.reverse.takeWhile (fun c => c != '/')).reverse
  (s.take (s.length - file.length), file)

/-- `(*arfs).statRoot`: cached root, else the explicit row named `"."`
(note: this query has no broken-mode filter), else the synthesized root
`fileinfoRoot`; the result is stored under key `"."`. -/
def statRoot (store : List Row) (cache : Cache) :
    Except Err Fileinfo × Cache :=
  match dirInfoLoad cache ['.'] with
  | some fi => (.ok fi, cache)
  | none =>
    let fi : Fileinfo :=
      match store.find? (fun r => r.name == ['.']) with
      | some row => ⟨row.rowid, ['.'], row.mode, row.mtime, row.sz⟩
      | none => ⟨0, ['.'], dirMode, 0, 0⟩
    let sc := dirInfoStore cache ['.'] fi
    (.ok sc.2, sc.1)

/-- The leaf part of `(*arfs).stat`, after the ancestor traversal checks:
cache lookup, then the point query `WHERE name=? AND sqlModeFilter`,
then the directory-emulation probe `WHERE SUBSTR(name,?)=?` with
arguments `len(name)+1` and `name+"/"` — i.e. the row matches iff
dropping its first `len(name)` characters yields `name+"/"`.
Directory results are stored in the cache under the full `name`. -/
def statLeaf (store : List Row) (cache : Cache)
    (name filename : List Char) : Except Err Fileinfo × Cache :=
  match dirInfoLoad cache name with
  | some info => (.ok info, cache)
  | none =>
    match store.find? (fun r => r.name == name && sqlModeFilter r.mode) with
    | some row =>
      let info : Fileinfo := ⟨row.rowid, filename, row.mode, row.mtime, row.sz⟩
      if isDir info.mode then
        let sc := dirInfoStore cache name info
        (.ok sc.2, sc.1)
      else
        (.ok info, cache)
    | none =>
      if store.any (fun r => r.name.drop name.length == name ++ ['/']) then
        let info : Fileinfo := ⟨0, filename, dirMode, 0, 0⟩
        let sc := dirInfoStore cache name info
        (.ok sc.2, sc.1)
      else
        (.error .errNotExist, cache)

/-- `(*arfs).stat`: split off the final segment, recursively resolve and
permission-check every ancestor, then resolve the leaf (`statLeaf`).
The Go recursion is on the strictly shorter parent path; `fuel` makes it
structural, and entry points pass `name.length + 1` (always enough). -/
def statGo (store : List Row) (mask : Nat) :
    Nat → Cache → List Char → Except Err Fileinfo × Cache
  | 0, cache, _ => (.error .errNotExist, cache)
  | fuel + 1, cache, name =>
    let ds := splitFile name
    match ds.1 with
    | [] =>
      match statRoot store cache with
      | (.error e, c1) => (.error (.pathError "stat".toList ['.'] e), c1)
      | (.ok fi, c1) =>
        if canTraverse mask fi.mode then statLeaf store c1 name ds.2
        else (.error .errPermission, c1)
    | d :: dtl =>
      let parent := (d :: dtl).dropLast
      match statGo store mask fuel cache parent with
      | (.error e, c1) => (.error (.pathError "stat".toList parent e), c1)
      | (.ok fi, c1) =>
        if !isDir fi.mode then (.error .errNotExist, c1)
        else if !canTraverse mask fi.mode then (.error .errPermission, c1)
        else statLeaf store c1 name ds.2

/-- `(*arfs).stat` with the fuel instantiated as the callers need. -/
def stat (store : List Row) (mask : Nat) (cache : Cache)
    (name : List Char) : Except Err Fileinfo × Cache :=
  statGo store mask (name.length + 1) cache name

/-- `(*arfs).Stat` (the `fs.StatFS` method): root via `statRoot`, else
grammar check, else `stat`; errors wrapped in a `PathError`. -/
def statFS (ar : Arfs) (name : List Char) : Except Err Fileinfo × Arfs :=
  if name = ['.'] then
    match statRoot ar.db ar.dirInfo with
    | (.error e, c) =>
      (.error (.pathError "stat".toList name e), { ar with dirInfo := c })
    | (.ok fi, c) => (.ok fi, { ar with dirInfo := c })
  else if !validPath name then
    (.error (.pathError "stat".toList name .errInvalid), ar)
  else
    match stat ar.db ar.permMask ar.dirInfo name with
    | (.error e, c) =>
      (.error (.pathError "stat".toList name e), { ar with dirInfo := c })
    | (.ok fi, c) => (.ok fi, { ar with dirInfo := c })

/-- Files part of the `readDir` query: rows matching
`name LIKE 'pfx_%'` and not `'pfx%/%'` (direct children: the name
extends `pfx` without a further `'/'`), filtered by `sqlModeFilter`;
the selected name is `SUBSTR(name, 1+len(pfx))`, the remainder. -/
def readDirFiles (store : List Row) (pfx : List Char) : List Fileinfo :=
  store.filterMap fun r =>
    if pfx.isPrefixOf r.name && decide (pfx.length < r.name.length) &&
        !(r.name.drop pfx.length).contains '/' && sqlModeFilter r.mode then
      some ⟨r.rowid, r.name.drop pfx.length, r.mode, r.mtime, r.sz⟩
    else
      none

/-- Keep the first occurrence of each element (the `SELECT DISTINCT` of
the subdirectory part of the `readDir` query). -/
def dedupFirst (l : List (List Char)) : List (List Char) :=
  l.foldl (fun acc s => if acc.contains s then acc else acc ++ [s]) []

/-- Subdirectory part of the `readDir` query: rows matching
`name LIKE 'pfx_%/%'` and not `'pfx%/%/%'` (the remainder after `pfx`
has exactly one `'/'`, at position ≥ 1); each distinct first segment
yields an emulated entry `(0, segment, 16749, 0, 0)`. -/
def readDirSubdirs (store : List Row) (pfx : List Char) : List Fileinfo :=
  (dedupFirst (store.filterMap fun r =>
    if pfx.isPrefixOf r.name &&
        ((r.name.drop pfx.length).drop 1).contains '/' &&
        decide ((r.name.drop pfx.length).count '/' < 2) then
      some ((r.name.drop pfx.length).takeWhile (fun c => c != '/'))
    else
      none)).map fun seg => ⟨0, seg, 16749, 0, 0⟩

/-- The full `readDir` query (`UNION ALL`): files part then
subdirectories part, in store order. -/
def readDirRows (store : List Row) (pfx : List Char) : List Fileinfo :=
  readDirFiles store pfx ++ readDirSubdirs store pfx

/-- The `rows.Next()` loop of `(*arfs).readDir`: directory entries are
deduplicated via the `subdirs` set and pushed into the cache under key
`pfx ++ "/" ++ entry-name` — `pfx` being the Go `name` variable, which
at this point is `""` for the root or ends in `'/'`. -/
def readDirLoop (pfx : List Char) :
    Cache → List Fileinfo → List (List Char) → List Fileinfo →
    List Fileinfo × Cache
  | cache, [], _, acc => (acc, cache)
  | cache, fi :: rest, seen, acc =>
    if isDir fi.mode then
      if seen.contains fi.name then
        readDirLoop pfx cache rest seen acc
      else
        let sc := dirInfoStore cache (pfx ++ '/' :: fi.name) fi
        readDirLoop pfx sc.1 rest (fi.name :: seen) (acc ++ [sc.2])
    else
      readDirLoop pfx cache rest seen (acc ++ [fi])

/-- The end of the `(*arfs).readDir` row loop, translated verbatim:
`if err := rows.Err(); err != err { return entries, err }` followed by
`return entries, rows.Close()` (`rows.Close()` after a completed
iteration reports no error). -/
def rowsFinish (entries : List Fileinfo) (iterErr : Option Err) :
    Except Err (List Fileinfo) :=
  if iterErr ≠ iterErr then .error (iterErr.getD .errNotExist)
  else .ok entries

/-- `(*arfs).readDir`: grammar check; for a non-root name, `stat` it and
require a readable directory, then append `'/'`; run the combined query
and the row loop; finish with the (dead) `rows.Err()` check.
`iterErr` is what `rows.Err()` would report for this iteration. -/
def readDirGo (ar : Arfs) (name : List Char) (iterErr : Option Err) :
    Except Err (List Fileinfo) × Arfs :=
  if !validPath name then (.error .errInvalid, ar)
  else
    let step : Except Err (List Char) × Arfs :=
      if name = ['.'] then (.ok [], ar)
      else
        match stat ar.db ar.permMask ar.dirInfo name with
        | (.error e, c) => (.error e, { ar with dirInfo := c })
        | (.ok fi, c) =>
          let ar2 : Arfs := { ar with dirInfo := c }
          if !isDir fi.mode then (.error .errInvalid, ar2)
          else if !canRead ar.permMask fi.mode then (.error .errPermission, ar2)
          else (.ok (name ++ ['/']), ar2)
    match step with
    | (.error e, ar2) => (.error e, ar2)
    | (.ok pfx, ar2) =>
      let lc := readDirLoop pfx ar2.dirInfo (readDirRows ar.db pfx) [] []
      (rowsFinish lc.1 iterErr, { ar2 with dirInfo := lc.2 })

/-- Byte-wise (code-point) order on names, as Go `string` `<`/`≤`. -/
def lexLe : List Char → List Char → Bool
  | [], _ => true
  | _ :: _, [] => false
  | a :: as, b :: bs =>
    if a.toNat = b.toNat then lexLe as bs else decide (a.toNat < b.toNat)

/-- One insertion step of the by-name sort used to model `sort.Slice`. -/
def insertSorted (fi : Fileinfo) : List Fileinfo → List Fileinfo
  | [] => [fi]
  | x :: xs =>
    if lexLe fi.name x.name then fi :: x :: xs else x :: insertSorted fi xs

/-- The `sort.Slice(list, list[i].Name() < list[j].Name())` call of
`(*arfs).ReadDir`: sort the entries ascending by name. -/
def sortByName (l : List Fileinfo) : List Fileinfo :=
  l.foldr insertSorted []

/-- Adjacent entries are in ascending (non-strict) name order. -/
def ascByName : List Fileinfo → Bool
  | [] => true
  | [_] => true
  | a :: b :: rest => lexLe a.name b.name && ascByName (b :: rest)

/-- Adjacent entries are in strictly ascending name order (sorted with
no duplicate names). -/
def strictAscByName : List Fileinfo → Bool
  | [] => true
  | [_] => true
  | a :: b :: rest =>
    lexLe a.name b.name && a.name != b.name && strictAscByName (b :: rest)

/-- `(*arfs).ReadDir` (the `fs.ReadDirFS` method): `readDir`, then sort
by name. -/
def arReadDirFS (ar : Arfs) (name : List Char) (iterErr : Option Err) :
    Except Err (List Fileinfo) × Arfs :=
  let rc := readDirGo ar name iterErr
  (rc.1.map sortByName, rc.2)

/-- Decoder state of an open file: `raw` models
`io.NopCloser(bytes.NewReader(buf))`, `flate` models the stream of a
`flate.NewReader` (holding the bytes still to be delivered). -/
inductive Reader where
  | raw : List Nat → Reader
  | flate : List Nat → Reader
deriving DecidableEq

/-- The `file` struct: `fsOpen` models the `fs` pointer being non-nil. -/
structure FileH where
  fsOpen : Bool
  path : List Char
  info : Fileinfo
  r : Option Reader
deriving DecidableEq

/-- The `dir` struct (embeds `file`; `entries` is `nil` until the first
`ReadDir` call populates it). -/
structure DirH where
  fsOpen : Bool
  path : List Char
  info : Fileinfo
  entries : Option (List Fileinfo)
deriving DecidableEq

/-- An `fs.File` returned by `Open`: a regular file or a directory. -/
inductive Handle where
  | file : FileH → Handle
  | dir : DirH → Handle
deriving DecidableEq

/-- Pull `n` bytes from a decoder (both kinds deliver their remaining
bytes in order). -/
def readerRead (rd : Reader) (n : Nat) : List Nat × Reader :=
  match rd with
  | .raw rem => (rem.take n, .raw (rem.drop n))
  | .flate rem => (rem.take n, .flate (rem.drop n))

/-- `(*file).Read`: reads after `Close` fail with `ErrClosed`; the first
read checks the read permission, fetches the payload by `rowid`
(`WHERE rowid=? AND sqlModeFilterReg`), and selects the decoder: raw if
the fetched length equals the declared size, else the flate decoder
over the fetched bytes (`inflate` being the observable output of
`compress/flate`); subsequent reads pull from the selected decoder. -/
def fileRead (inflate : List Nat → List Nat) (store : List Row)
    (mask : Nat) (f : FileH) (n : Nat) :
    Except Err (List Nat) × FileH :=
  match f.r with
  | some rd =>
    let br := readerRead rd n
    (.ok br.1, { f with r := some br.2 })
  | none =>
    if !f.fsOpen then
      (.error (.pathError "read".toList f.path .errClosed), f)
    else if !canRead mask f.info.mode then
      (.error (.pathError "read".toList f.path .errPermission), f)
    else
      match store.find? (fun row =>
          row.rowid == f.info.rowid && sqlModeFilterReg row.mode) with
      | none => (.error (.pathError "read".toList f.path .errNotExist), f)
      | some row =>
        let buf := row.data
        let rd :=
          if (buf.length : Int) == f.info.sz then Reader.raw buf
          else Reader.flate (inflate buf)
        let br := readerRead rd n
        (.ok br.1, { f with r := some br.2 })

/-- `(*file).Close`: clears the `fs` pointer and the decoder and returns
the decoder's close result (error-free in this model); returns `nil`
when there is no decoder. -/
def fileClose (f : FileH) : Option Err × FileH :=
  (none, { f with fsOpen := false, r := none })

/-- Go-style result of `(*dir).ReadDir(n)`: serve from the memoized
entry list (`n ≤ 0`: everything; otherwise up to `n` entries, with
`io.EOF` when the remainder fits). -/
def dirServe (d : DirH) (ar : Arfs) (l : List Fileinfo) (n : Int) :
    (List Fileinfo × Option Err) × DirH × Arfs :=
  if n ≤ 0 then ((l, none), { d with entries := some [] }, ar)
  else if (l.length : Int) ≤ n then
    ((l, some .eof), { d with entries := some [] }, ar)
  else
    ((l.take n.toNat, none), { d with entries := some (l.drop n.toNat) }, ar)

/-- `(*dir).ReadDir`: fails with `ErrClosed` on a closed handle; on the
first call fills `d.entries` from the **unsorted** `(*arfs).readDir`
and serves from it. -/
def dirReadDir (ar : Arfs) (d : DirH) (n : Int) (iterErr : Option Err) :
    (List Fileinfo × Option Err) × DirH × Arfs :=
  if !d.fsOpen then (([], some .errClosed), d, ar)
  else
    match d.entries with
    | some l => dirServe d ar l n
    | none =>
      match readDirGo ar d.path iterErr with
      | (.error e, ar2) => (([], some e), d, ar2)
      | (.ok l, ar2) => dirServe { d with entries := some l } ar2 l n

/-- Build the handle `Open` returns from the resolved metadata. -/
def mkHandle (name : List Char) (info : Fileinfo) : Handle :=
  if isDir info.mode then
    .dir { fsOpen := true, path := name, info := info, entries := none }
  else
    .file { fsOpen := true, path := name, info := info, r := none }

/-- `(*arfs).Open`: root via `statRoot`, else grammar check and `stat`;
errors wrapped in a `PathError`; directories yield a `dir` handle,
regular files a `file` handle. -/
def openGo (ar : Arfs) (name : List Char) : Except Err Handle × Arfs :=
  if name = ['.'] then
    match statRoot ar.db ar.dirInfo with
    | (.error e, c) =>
      (.error (.pathError "open".toList name e), { ar with dirInfo := c })
    | (.ok info, c) => (.ok (mkHandle name info), { ar with dirInfo := c })
  else if !validPath name then
    (.error (.pathError "open".toList name .errInvalid), ar)
  else
    match stat ar.db ar.permMask ar.dirInfo name with
    | (.error e, c) =>
      (.error (.pathError "open".toList name e), { ar with dirInfo := c })
    | (.ok info, c) => (.ok (mkHandle name info), { ar with dirInfo := c })

/-- Invariant of the metadata cache: every value stored under a key
other than `"."` passes the broken-mode filter.  (The root key may hold
an unfiltered explicit root row, since `statRoot`'s query has no mode
filter.) -/
def cacheInv (c : Cache) : Prop :=
  ∀ p v, (p, v) ∈ c → p ≠ ['.'] → sqlModeFilter v.mode = true

/-- The synthesized root metadata (Go `fileinfoRoot`). -/
def fiRoot : Fileinfo := ⟨0, ['.'], 16749, 0, 0⟩

/-- Example row: regular file `a.txt`, mode `0100644`, one byte. -/
def rowA : Row := ⟨1, "a.txt".toList, 33188, 0, 1, [65]⟩

/-- Example row: regular file `sub/b.txt` inside an implied directory. -/
def rowSubB : Row := ⟨2, "sub/b.txt".toList, 33188, 0, 1, [66]⟩

/-- Example store with one implied subdirectory. -/
def storeSub : List Row := [rowA, rowSubB]

/-- Example row: regular file `x` whose name is also an implied
directory (`x/y` exists). -/
def rowX : Row := ⟨1, "x".toList, 33188, 0, 1, [65]⟩

/-- Example row: regular file `x/y`. -/
def rowXY : Row := ⟨2, "x/y".toList, 33188, 0, 1, [66]⟩

/-- Example row: regular file `a.txt` with rowid 3. -/
def rowA3 : Row := ⟨3, "a.txt".toList, 33188, 0, 1, [65]⟩

/-- Example store whose listing exhibits store-order output and a
file/directory name collision: rows `x`, `x/y`, `a.txt`. -/
def storeDup : List Row := [rowX, rowXY, rowA3]

/-- Example row: directory `d` with owner-only permissions
(`040700`). -/
def rowD : Row := ⟨1, "d".toList, 16832, 0, 0, []⟩

/-- Example row: regular file `d/f`, mode `0100600`, content "Foo". -/
def rowDF : Row := ⟨2, "d/f".toList, 33152, 0, 3, [70, 111, 111]⟩

/-- Example row: regular file `g` at the root, mode `0100600` (owner
read only), content "Bar" stored raw (length = declared size). -/
def rowG : Row := ⟨3, "g".toList, 33152, 0, 3, [66, 97, 114]⟩

/-- Example store for the permission round trip. -/
def permStore : List Row := [rowD, rowDF, rowG]

/-- The handle `Open("g")` yields on `permStore`. -/
def fgHandle : FileH := ⟨true, "g".toList, ⟨3, "g".toList, 33152, 0, 3⟩, none⟩

/-- Example row whose mode has BOTH type bits set
(`S_IFREG|S_IFDIR|0644` = 49572). -/
def rowBoth : Row := ⟨1, "f".toList, 49572, 0, 0, []⟩

/-! Lemmas about the metadata cache. -/

theorem dirInfoLoad_mem {c : Cache} {p : List Char} {v : Fileinfo}
    (h : dirInfoLoad c p = some v) : (p, v) ∈ c := by
  unfold dirInfoLoad at h
  cases hf : c.find? (fun kv => kv.1 == p) with
  | none => rw [hf] at h; simp at h
  | some kv =>
    obtain ⟨k1, k2⟩ := kv
    rw [hf] at h
    simp at h
    have hmem := List.mem_of_find?_eq_some hf
    have hkey := List.find?_some hf
    simp only [beq_iff_eq] at hkey
    subst hkey
    subst h
    exact hmem

theorem dirInfoStore_none {c : Cache} {p : List Char} {fi : Fileinfo}
    (h : dirInfoLoad c p = none) :
    dirInfoStore c p fi = ((p, fi) :: c, fi) := by
  unfold dirInfoStore
  rw [h]

theorem cacheInv_dirInfoStore {c : Cache} {p : List Char} {v : Fileinfo}
    (h : cacheInv c) (hv : p ≠ ['.'] → sqlModeFilter v.mode = true) :
    cacheInv (dirInfoStore c p v).1 := by
  unfold dirInfoStore
  cases hl : dirInfoLoad c p with
  | some fi2 => exact h
  | none =>
    intro q w hm hq
    rcases List.mem_cons.mp hm with hm | hm
    · cases hm
      exact hv hq
    · exact h q w hm hq

/-! `stat` preserves the cache invariant; every non-root `stat` success
passes the broken-mode filter. -/

theorem cacheInv_statRoot (store : List Row) (c : Cache)
    (h : cacheInv c) : cacheInv (statRoot store c).2 := by
  unfold statRoot
  cases hl : dirInfoLoad c ['.'] with
  | some fi => exact h
  | none =>
    apply cacheInv_dirInfoStore h
    intro hne
    exact absurd rfl hne

theorem cacheInv_statLeaf {store : List Row} {c : Cache}
    {name filename : List Char} (h : cacheInv c) :
    cacheInv (statLeaf store c name filename).2 := by
  simp only [statLeaf]
  split
  · exact h
  · split
    · split
      · apply cacheInv_dirInfoStore h
        rename_i row hfind _
        intro _
        have hp := List.find?_some hfind
        simp only [Bool.and_eq_true] at hp
        exact hp.2
      · exact h
    · split
      · apply cacheInv_dirInfoStore h
        intro _
        show sqlModeFilter dirMode = true
        decide
      · exact h

theorem statLeaf_ok_filter {store : List Row} {c : Cache}
    {name filename : List Char} {fi : Fileinfo} (hinv : cacheInv c)
    (hname : name ≠ ['.'])
    (hok : (statLeaf store c name filename).1 = .ok fi) :
    sqlModeFilter fi.mode = true := by
  simp only [statLeaf] at hok
  split at hok
  · rename_i info hload
    simp only [Except.ok.injEq] at hok
    subst hok
    exact hinv name info (dirInfoLoad_mem hload) hname
  · rename_i hload
    split at hok
    · rename_i row hfind
      have hp := List.find?_some hfind
      simp only [Bool.and_eq_true] at hp
      split at hok
      · rw [dirInfoStore_none hload] at hok
        simp only [Except.ok.injEq] at hok
        subst hok
        exact hp.2
      · simp only [Except.ok.injEq] at hok
        subst hok
        exact hp.2
    · split at hok
      · rw [dirInfoStore_none hload] at hok
        simp only [Except.ok.injEq] at hok
        subst hok
        show sqlModeFilter dirMode = true
        decide
      · simp at hok

theorem cacheInv_statGo (store : List Row) (mask : Nat) :
    ∀ (fuel : Nat) (c : Cache) (name : List Char), cacheInv c →
      cacheInv (statGo store mask fuel c name).2 := by
  intro fuel
  induction fuel with
  | zero =>
    intro c name h
    simpa only [statGo] using h
  | succ n ih =>
    intro c name h
    simp only [statGo]
    split
    · split
      · rename_i x e c1 hroot
        have hc1 := cacheInv_statRoot store c h
        rw [hroot] at hc1
        exact hc1
      · rename_i x pfi c1 hroot
        have hc1 := cacheInv_statRoot store c h
        rw [hroot] at hc1
        split
        · exact cacheInv_statLeaf hc1
        · exact hc1
    · split
      · rename_i d dl hsplit x e c1 hrec
        have hc1 := ih c ((d :: dl).dropLast) h
        rw [hrec] at hc1
        exact hc1
      · rename_i d dl hsplit x pfi c1 hrec
        have hc1 := ih c ((d :: dl).dropLast) h
        rw [hrec] at hc1
        split
        · exact hc1
        · split
          · exact hc1
          · exact cacheInv_statLeaf hc1

theorem statGo_ok_filter (store : List Row) (mask : Nat)
    (fuel : Nat) (c : Cache) (name : List Char) (fi : Fileinfo)
    (hinv : cacheInv c) (hname : name ≠ ['.'])
    (hok : (statGo store mask fuel c name).1 = .ok fi) :
    sqlModeFilter fi.mode = true := by
  cases fuel with
  | zero => simp [statGo] at hok
  | succ n =>
    simp only [statGo] at hok
    split at hok
    · split at hok
      · simp at hok
      · rename_i x pfi c1 hroot
        have hc1 := cacheInv_statRoot store c hinv
        rw [hroot] at hc1
        split at hok
        · exact statLeaf_ok_filter hc1 hname hok
        · simp at hok
    · split at hok
      · simp at hok
      · rename_i d dl hsplit x pfi c1 hrec
        have hc1 := cacheInv_statGo store mask n c ((d :: dl).dropLast) hinv
        rw [hrec] at hc1
        split at hok
        · simp at hok
        · split at hok
          · simp at hok
          · exact statLeaf_ok_filter hc1 hname hok

/-! Every entry produced by the listing query passes the mode filter. -/

theorem readDirRows_filter {store : List Row} {pfx : List Char}
    {g : Fileinfo} (h : g ∈ readDirRows store pfx) :
    sqlModeFilter g.mode = true := by
  unfold readDirRows at h
  rcases List.mem_append.mp h with h | h
  · unfold readDirFiles at h
    rcases List.mem_filterMap.mp h with ⟨r, _, hr⟩
    split at hr
    · rename_i hcond
      simp only [Bool.and_eq_true] at hcond
      simp only [Option.some.injEq] at hr
      subst hr
      exact hcond.2
    · simp at hr
  · unfold readDirSubdirs at h
    rcases List.mem_map.mp h with ⟨seg, _, hseg⟩
    subst hseg
    show sqlModeFilter 16749 = true
    decide

/-! The dead `rows.Err()` check: the iteration error never escapes. -/

theorem rowsFinish_ok (entries : List Fileinfo) (iterErr : Option Err) :
    rowsFinish entries iterErr = .ok entries := by
  unfold rowsFinish
  rw [if_neg]
  intro hcontra
  exact hcontra rfl

theorem readDirGo_iterErr_irrelevant (ar : Arfs) (name : List Char)
    (e : Option Err) : readDirGo ar name e = readDirGo ar name none := by
  unfold readDirGo
  simp only [rowsFinish_ok]

/-! Order lemmas for the by-name sort. -/

theorem lexLe_total {a b : List Char} (h : lexLe a b = false) :
    lexLe b a = true := by
  induction a generalizing b with
  | nil => simp [lexLe] at h
  | cons x xs ih =>
    cases b with
    | nil => simp [lexLe]
    | cons y ys =>
      unfold lexLe at h ⊢
      by_cases hxy : x.toNat = y.toNat
      · rw [if_pos hxy] at h
        rw [if_pos hxy.symm]
        exact ih h
      · rw [if_neg hxy] at h
        rw [if_neg (fun hh => hxy hh.symm)]
        simp only [decide_eq_false_iff_not] at h
        simp only [decide_eq_true_eq]
        omega

theorem asc_tail {x : Fileinfo} {l : List Fileinfo}
    (h : ascByName (x :: l) = true) : ascByName l = true := by
  cases l with
  | nil => rfl
  | cons y ys =>
    unfold ascByName at h
    exact (Bool.and_eq_true .. ▸ h).2

theorem asc_head {x z : Fileinfo} {l : List Fileinfo}
    (h : ascByName (x :: l) = true) (hz : l.head? = some z) :
    lexLe x.name z.name = true := by
  cases l with
  | nil => simp at hz
  | cons y ys =>
    simp only [List.head?_cons, Option.some.injEq] at hz
    subst hz
    unfold ascByName at h
    exact (Bool.and_eq_true .. ▸ h).1

theorem asc_cons {x : Fileinfo} {l : List Fileinfo}
    (hl : ascByName l = true)
    (hhead : ∀ y, l.head? = some y → lexLe x.name y.name = true) :
    ascByName (x :: l) = true := by
  cases l with
  | nil => rfl
  | cons y ys =>
    unfold ascByName
    rw [hhead y rfl, hl]
    rfl

theorem insertSorted_head {fi z : Fileinfo} {l : List Fileinfo}
    (h : (insertSorted fi l).head? = some z) :
    z = fi ∨ l.head? = some z := by
  cases l with
  | nil =>
    left
    simp [insertSorted] at h
    exact h.symm
  | cons y ys =>
    unfold insertSorted at h
    by_cases hc : lexLe fi.name y.name = true
    · rw [if_pos hc] at h
      left
      simp only [List.head?_cons, Option.some.injEq] at h
      exact h.symm
    · rw [if_neg hc] at h
      right
      simpa using h

theorem ascByName_insertSorted (fi : Fileinfo) :
    ∀ l, ascByName l = true → ascByName (insertSorted fi l) = true := by
  intro l
  induction l with
  | nil =>
    intro _
    rfl
  | cons x xs ih =>
    intro h
    unfold insertSorted
    by_cases hle : lexLe fi.name x.name = true
    · rw [if_pos hle]
      exact asc_cons h (by
        intro y hy
        simp only [List.head?_cons, Option.some.injEq] at hy
        subst hy
        exact hle)
    · rw [if_neg hle]
      apply asc_cons (ih (asc_tail h))
      intro z hz
      rcases insertSorted_head hz with hz | hz
      · subst hz
        exact lexLe_total (Bool.not_eq_true _ ▸ hle)
      · exact asc_head h hz

theorem ascByName_sortByName (l : List Fileinfo) :
    ascByName (sortByName l) = true := by
  unfold sortByName
  induction l with
  | nil => rfl
  | cons x xs ih => exact ascByName_insertSorted x _ ih

/-! Claim theorems. -/

/-- C1, counterexample: the claim says rows whose mode encodes zero OR
two type bits are excluded from every lookup; but `sqlModeFilter` only
requires at least one type bit, so the row `f` with mode
`S_IFREG|S_IFDIR|0644` = 49572 (both type bits) is returned by `stat`
with both type bits set. -/
theorem c1_counterexample :
    (statFS ⟨[rowBoth], 0o777, []⟩ ("f".toList)).1 =
      .ok ⟨1, "f".toList, 49572, 0, 0⟩ ∧
    (49572 &&& S_IFDIR ≠ 0 ∧ 49572 &&& S_IFREG ≠ 0) :=
  ⟨rfl, by decide⟩

/-- C1 (amended): rows whose mode encodes ZERO type bits are excluded
from every lookup and listing — every `Fileinfo` returned by a non-root
`stat` (over a cache whose non-root entries pass the filter, as an
empty cache does) and every listing-query entry has at least one type
bit — but rows with BOTH type bits set pass the filter and are
returned. -/
theorem c1_amended (store : List Row) (mask fuel : Nat) (c : Cache)
    (name : List Char) (fi : Fileinfo) (hinv : cacheInv c)
    (hname : name ≠ ['.'])
    (hok : (statGo store mask fuel c name).1 = .ok fi) :
    sqlModeFilter fi.mode = true ∧
      ∀ (store2 : List Row) (pfx : List Char) (g : Fileinfo),
        g ∈ readDirRows store2 pfx → sqlModeFilter g.mode = true :=
  ⟨statGo_ok_filter store mask fuel c name fi hinv hname hok,
    fun _ _ _ hg => readDirRows_filter hg⟩

/-- Witness for C1 (amended) at a concrete input. -/
theorem c1_amended_witness :
    sqlModeFilter (Fileinfo.mk 1 ("a.txt".toList) 33188 0 1).mode = true :=
  (c1_amended [rowA] 0o777 6 [] ("a.txt".toList)
      ⟨1, "a.txt".toList, 33188, 0, 1⟩
      (by intro p v hm hq; simp at hm) (by decide) rfl).1

/-- C2, counterexample: on the store `[x, x/y, a.txt]` (row order of the
store), the `ReadDir` method of the handle obtained by opening the root
returns the entries in store row order — `x, a.txt, x` — which is
neither sorted nor duplicate-free, and even the sorted filesystem-level
listing contains the name `x` twice (the regular file and the inferred
subdirectory). -/
theorem c2_counterexample :
    openGo ⟨storeDup, 0o777, []⟩ ['.'] =
      (.ok (.dir ⟨true, ['.'], ⟨0, ['.'], 16749, 0, 0⟩, none⟩),
        ⟨storeDup, 0o777, [(['.'], ⟨0, ['.'], 16749, 0, 0⟩)]⟩) ∧
    (dirReadDir ⟨storeDup, 0o777, [(['.'], ⟨0, ['.'], 16749, 0, 0⟩)]⟩
        ⟨true, ['.'], ⟨0, ['.'], 16749, 0, 0⟩, none⟩ 0 none).1 =
      ([⟨1, "x".toList, 33188, 0, 1⟩, ⟨3, "a.txt".toList, 33188, 0, 1⟩,
        ⟨0, "x".toList, 16749, 0, 0⟩], none) ∧
    strictAscByName [⟨1, "x".toList, 33188, 0, 1⟩,
      ⟨3, "a.txt".toList, 33188, 0, 1⟩,
      ⟨0, "x".toList, 16749, 0, 0⟩] = false ∧
    (arReadDirFS ⟨storeDup, 0o777, []⟩ ['.'] none).1 =
      .ok [⟨3, "a.txt".toList, 33188, 0, 1⟩, ⟨1, "x".toList, 33188, 0, 1⟩,
        ⟨0, "x".toList, 16749, 0, 0⟩] ∧
    strictAscByName [⟨3, "a.txt".toList, 33188, 0, 1⟩,
      ⟨1, "x".toList, 33188, 0, 1⟩,
      ⟨0, "x".toList, 16749, 0, 0⟩] = false :=
  ⟨rfl, rfl, by decide, rfl, by decide⟩

/-- C2 (amended): the filesystem-level `ReadDir` returns the entry set
sorted ascending by name (non-strictly: a name can repeat when a
regular-file row collides with an inferred subdirectory), independent
of the store's row order; the handle-level `ReadDir` serves the entry
set unsorted, in store row order. -/
theorem c2_amended (ar : Arfs) (name : List Char) (e : Option Err)
    (l : List Fileinfo) (h : (arReadDirFS ar name e).1 = .ok l) :
    ascByName l = true := by
  simp only [arReadDirFS] at h
  cases hr : (readDirGo ar name e).1 with
  | error e2 =>
    rw [hr] at h
    simp [Except.map] at h
  | ok l0 =>
    rw [hr] at h
    simp only [Except.map, Except.ok.injEq] at h
    rw [← h]
    exact ascByName_sortByName l0

/-- Witness for C2 (amended) at a concrete input. -/
theorem c2_amended_witness :
    ascByName [⟨3, "a.txt".toList, 33188, 0, 1⟩,
      ⟨1, "x".toList, 33188, 0, 1⟩,
      ⟨0, "x".toList, 16749, 0, 0⟩] = true :=
  c2_amended ⟨storeDup, 0o777, []⟩ ['.'] none _ rfl

/-- C3: the claim says each resolved directory entry of a listing is
cached under the child's full normalized path so that a later `stat`
finds it; but the code computes the key as `name+"/"+fi.name` with
`name` already `""` (root) or slash-terminated, so listing the root of
a store containing `sub/b.txt` caches the inferred directory under
`"/sub"` — not a valid path, never consulted by `stat("sub")`, whose
cache lookup misses. -/
theorem c3_cache_key_mismatch :
    (readDirGo ⟨[rowSubB], 0o777, []⟩ ['.'] none).1 =
      .ok [⟨0, "sub".toList, 16749, 0, 0⟩] ∧
    (readDirGo ⟨[rowSubB], 0o777, []⟩ ['.'] none).2.dirInfo =
      [("/sub".toList, ⟨0, "sub".toList, 16749, 0, 0⟩)] ∧
    dirInfoLoad (readDirGo ⟨[rowSubB], 0o777, []⟩ ['.'] none).2.dirInfo
      ("sub".toList) = none ∧
    validPath ("/sub".toList) = false :=
  ⟨rfl, rfl, rfl, by decide⟩

/-- C4: the claim says store errors during listing are propagated
verbatim; but the final check of the row loop reads
`if err := rows.Err(); err != err` — a self-comparison that is never
true — so an iteration error reported by the store is swallowed: the
listing result is independent of `iterErr`, and with a store failure
during the listing of the root the caller still receives the entries
with no error. -/
theorem c4_store_error_swallowed :
    (∀ (ar : Arfs) (name : List Char) (e : Option Err),
      readDirGo ar name e = readDirGo ar name none) ∧
    (readDirGo ⟨storeSub, 0o777, []⟩ ['.'] (some (.dbError 1))).1 =
      .ok [⟨1, "a.txt".toList, 33188, 0, 1⟩, ⟨0, "sub".toList, 16749, 0, 0⟩] :=
  ⟨readDirGo_iterErr_irrelevant, rfl⟩

/-- C5: permission round trip.  `canRead`/`canTraverse` are exactly the
masked read/execute tests; with mask `PermOthers` (0007) the path
`d/f` under the owner-only directory `d` (040700) fails `stat` with
permission-denied at the traversal step, and reading the owner-only
file `g` (0100600) fails with permission-denied; with mask `PermAny`
(0777) the same `stat` succeeds and the same read returns the
content. -/
theorem c5_permission_roundtrip :
    (∀ mask mode : Nat, canRead mask mode = ((mode &&& 0o444 &&& mask) != 0)) ∧
    (∀ mask mode : Nat,
      canTraverse mask mode = ((mode &&& 0o111 &&& mask) != 0)) ∧
    (statFS ⟨permStore, 0o007, []⟩ ("d/f".toList)).1 =
      .error (.pathError "stat".toList "d/f".toList .errPermission) ∧
    (openGo ⟨permStore, 0o007, []⟩ ("g".toList)).1 = .ok (.file fgHandle) ∧
    (fileRead (fun b => b) permStore 0o007 fgHandle 3).1 =
      .error (.pathError "read".toList "g".toList .errPermission) ∧
    (statFS ⟨permStore, 0o777, []⟩ ("d/f".toList)).1 =
      .ok ⟨2, "f".toList, 33152, 0, 3⟩ ∧
    (fileRead (fun b => b) permStore 0o777 fgHandle 3).1 = .ok [66, 97, 114] :=
  ⟨fun _ _ => rfl, fun _ _ => rfl, rfl, rfl, rfl, rfl, rfl⟩

/-- C6: the claim says `stat` synthesizes a directory when some row's
path is prefixed by `<path>/`; but the probe compares the SUFFIX
`SUBSTR(name, len(path)+1)` against `path+"/"`, so on the store
`[a.txt, sub/b.txt]` — where rows prefixed by `sub/` do exist and the
listing does synthesize `sub` with mode 16749/size 0/mtime 0 —
`stat("sub")` reports not-found instead of the synthesized
directory. -/
theorem c6_stat_probe_never_matches :
    (statFS ⟨storeSub, 0o777, []⟩ ("sub".toList)).1 =
      .error (.pathError "stat".toList "sub".toList .errNotExist) ∧
    storeSub.any (fun r => ("sub/".toList).isPrefixOf r.name) = true ∧
    readDirRows storeSub [] =
      [⟨1, "a.txt".toList, 33188, 0, 1⟩, ⟨0, "sub".toList, 16749, 0, 0⟩] :=
  ⟨rfl, by decide, rfl⟩

/-- C7: on the first read of an open regular file (no decoder yet, not
closed, readable), the payload is fetched by row identity; if the
fetched byte length equals the declared size the raw bytes are served
byte-for-byte, otherwise the flate decoder over the fetched bytes is
selected (its decoded stream being `inflate` of the payload, of the
declared size for a well-formed archive); and once a decoder is
selected every subsequent read pulls from it without touching the
store. -/
theorem c7_content_reader (inflate : List Nat → List Nat)
    (store : List Row) (mask : Nat) (f : FileH) (row : Row) (n : Nat)
    (hr : f.r = none) (hopen : f.fsOpen = true)
    (hperm : canRead mask f.info.mode = true)
    (hfind : store.find? (fun q => q.rowid == f.info.rowid &&
      sqlModeFilterReg q.mode) = some row) :
    (((row.data.length : Int) = f.info.sz →
        fileRead inflate store mask f n =
          (.ok (row.data.take n),
            { f with r := some (.raw (row.data.drop n)) })) ∧
      ((row.data.length : Int) ≠ f.info.sz →
        fileRead inflate store mask f n =
          (.ok ((inflate row.data).take n),
            { f with r := some (.flate ((inflate row.data).drop n)) }))) ∧
    ∀ (g : FileH) (rd : Reader) (m : Nat) (s1 s2 : List Row),
      g.r = some rd →
        fileRead inflate s1 mask g m = fileRead inflate s2 mask g m := by
  refine ⟨⟨?_, ?_⟩, ?_⟩
  · intro hsz
    simp only [fileRead, hr, hopen, hperm, hfind, Bool.not_true,
      Bool.false_eq_true, if_false, readerRead]
    rw [if_pos (by simpa using hsz)]
  · intro hsz
    simp only [fileRead, hr, hopen, hperm, hfind, Bool.not_true,
      Bool.false_eq_true, if_false, readerRead]
    rw [if_neg (by simpa using hsz)]
  · intro g rd m s1 s2 hg
    simp only [fileRead, hg]

/-- Witness for C7 at a concrete input (raw case: stored length equals
declared size). -/
theorem c7_content_reader_witness :
    fileRead (fun b => b) [rowG] 0o777 fgHandle 3 =
      (.ok (rowG.data.take 3),
        { fgHandle with r := some (.raw (rowG.data.drop 3)) }) :=
  (c7_content_reader (fun b => b) [rowG] 0o777 fgHandle rowG 3 rfl rfl
      (by decide) rfl).1.1 (by decide)

/-- C8: the metadata cache is first-writer-wins — storing to an already
bound path leaves the cache unchanged and returns the existing entry;
storing to an unbound path adds exactly that binding; other keys are
untouched; and after any store, every load of the path yields the
binding the store returned (the first-written entry). -/
theorem c8_cache_first_writer_wins (c : Cache) (p : List Char)
    (fi : Fileinfo) :
    (∀ fi0, dirInfoLoad c p = some fi0 → dirInfoStore c p fi = (c, fi0)) ∧
    (dirInfoLoad c p = none → dirInfoStore c p fi = ((p, fi) :: c, fi)) ∧
    (∀ q, q ≠ p → dirInfoLoad (dirInfoStore c p fi).1 q = dirInfoLoad c q) ∧
    dirInfoLoad (dirInfoStore c p fi).1 p = some (dirInfoStore c p fi).2 := by
  refine ⟨?_, ?_, ?_, ?_⟩
  · intro fi0 h
    unfold dirInfoStore
    rw [h]
  · exact dirInfoStore_none
  · intro q hq
    unfold dirInfoStore
    cases hl : dirInfoLoad c p with
    | some fi2 => rfl
    | none =>
      unfold dirInfoLoad
      rw [List.find?_cons_of_neg]
      intro hh
      simp only [beq_iff_eq] at hh
      exact hq hh.symm
  · cases hl : dirInfoLoad c p with
    | some fi2 =>
      unfold dirInfoStore
      rw [hl]
      exact hl
    | none =>
      rw [dirInfoStore_none hl]
      unfold dirInfoLoad
      rw [List.find?_cons_of_pos]
      · rfl
      · simp

/-- Witness for C8 at a concrete input: storing over an existing
binding returns the existing entry and leaves the cache unchanged. -/
theorem c8_cache_witness :
    dirInfoStore [("a".toList, fiRoot)] ("a".toList)
        ⟨9, "a".toList, 33188, 0, 1⟩ =
      ([("a".toList, fiRoot)], fiRoot) :=
  (c8_cache_first_writer_wins [("a".toList, fiRoot)] ("a".toList)
      ⟨9, "a".toList, 33188, 0, 1⟩).1 fiRoot rfl

/-- C9: `Close` succeeds and is idempotent — it returns no error on any
handle, including one never read or already closed — and any read
attempted after a close fails with the "closed" error (never a
success or EOF-like result). -/
theorem c9_close_idempotent (f : FileH) :
    (fileClose f).1 = none ∧
    (fileClose (fileClose f).2).1 = none ∧
    ∀ (inflate : List Nat → List Nat) (store : List Row) (mask n : Nat),
      (fileRead inflate store mask (fileClose f).2 n).1 =
        .error (.pathError "read".toList f.path .errClosed) :=
  ⟨rfl, rfl, fun _ _ _ _ => rfl⟩

/-- C10: a permission-mask option whose value is not exactly one of the
four constants (0700, 0070, 0007, 0777) panics during construction
(modelled as `none`), e.g. the combined mask 0770; each constant is
accepted; and construction with no option yields the most permissive
mask 0777. -/
theorem c10_mask_validation (db : List Row) (ar : Arfs) (p : Nat)
    (h1 : p ≠ 0o700) (h2 : p ≠ 0o070) (h3 : p ≠ 0o007) (h4 : p ≠ 0o777) :
    applyPerm p ar = none ∧
    newFS db [p] = none ∧
    newFS db [] = some ⟨db, 0o777, []⟩ ∧
    applyPerm 0o700 ar = some { ar with permMask := 0o700 } ∧
    applyPerm 0o070 ar = some { ar with permMask := 0o070 } ∧
    applyPerm 0o007 ar = some { ar with permMask := 0o007 } ∧
    applyPerm 0o777 ar = some { ar with permMask := 0o777 } := by
  have hnone : ∀ a : Arfs, applyPerm p a = none := by
    intro a
    unfold applyPerm
    rw [if_neg]
    rintro (h | h | h | h)
    · exact h1 h
    · exact h2 h
    · exact h3 h
    · exact h4 h
  refine ⟨hnone ar, ?_, rfl, rfl, rfl, rfl, rfl⟩
  simp only [newFS, List.foldl, Option.bind, hnone]

/-- Witness for C10 at the concrete invalid mask 0770. -/
theorem c10_mask_validation_witness :
    applyPerm 0o770 ⟨[], 0o777, []⟩ = none ∧ newFS [] [0o770] = none := by
  have h := c10_mask_validation [] ⟨[], 0o777, []⟩ 0o770
    (by decide) (by decide) (by decide) (by decide)
  exact ⟨h.1, h.2.1⟩
